import Mathlib

/-!
Verification development for the shpool client wire protocol
(`src/src/protocol.rs`): the chunk codec (`Chunk::write_to`,
`Chunk::read_into`), the connect-header writer
(`Client::write_connect_header`), the attach relay byte pumps
(`Client::pipe_bytes`), and the attach-header environment lookup
(`AttachHeader::local_env_get`).

Machine integers are modelled as `Nat` with explicit `% 2^w` where the
Rust code performs a truncating cast.  Byte streams are `List Nat`
(each element a byte value).  Nonblocking I/O is modelled by explicit
environments: a stream of stop-flag observations and a stream of
syscall results, one entry consumed per call, with fuel bounding the
number of loop iterations.
-/

/-- Little-endian byte decomposition of a 16-bit word (truncates mod 2^16). -/
def u16le (n : Nat) : List Nat := [n % 256, n / 256 % 256]

/-- Little-endian byte decomposition of a 32-bit word (truncates mod 2^32),
as produced by `WriteBytesExt::write_u32::<LittleEndian>`. -/
def u32le (n : Nat) : List Nat :=
  [n % 256, n / 256 % 256, n / 65536 % 256, n / 16777216 % 256]

/-- Little-endian byte decomposition of a 64-bit word (truncates mod 2^64). -/
def u64le (n : Nat) : List Nat :=
  [n % 256, n / 256 % 256, n / 65536 % 256, n / 16777216 % 256,
   n / 4294967296 % 256, n / 1099511627776 % 256,
   n / 281474976710656 % 256, n / 72057594037927936 % 256]

/-- The value read by `ReadBytesExt::read_u32::<LittleEndian>`: the first
four bytes of the stream assembled little-endian.  (Callers only use this
after checking at least four bytes are available.) -/
def u32leDec : List Nat → Nat
  | a :: b :: c :: d :: _ => a + 256 * b + 65536 * c + 16777216 * d
  | _ => 0

theorem u32leDec_u32le_append (n : Nat) (l : List Nat) :
    u32leDec (u32le n ++ l) = n % 4294967296 := by
  simp only [u32le, List.cons_append, List.nil_append, u32leDec]
  omega

theorem length_u32le (n : Nat) : (u32le n).length = 4 := by
  simp [u32le]

/-- Modelled from the spec: `consts::BUF_SIZE` (the `consts` module is not
in `src/`); the spec gives 4096 bytes as the buffer size, the upper bound
on any single chunk payload. -/
def BUF_SIZE : Nat := 4096

/-- `ChunkKind` from `protocol.rs`: the tag byte of an output-stream frame. -/
inductive ChunkKind
  | Data
  | Heartbeat
deriving DecidableEq

/-- The tag byte transmitted for a kind (`self.kind as u8`): the 0-based
declaration-order discriminant. -/
def ChunkKind.toByte : ChunkKind → Nat
  | .Data => 0
  | .Heartbeat => 1

/-- `ChunkKind::from_u8`: 0 is Data, 1 is Heartbeat, anything else is an
error (modelled as `none`). -/
def ChunkKind.from_u8 (b : Nat) : Option ChunkKind :=
  if b = 0 then some ChunkKind.Data
  else if b = 1 then some ChunkKind.Heartbeat
  else none

/-- A `Chunk`: kind tag plus payload bytes. -/
structure Chunk where
  kind : ChunkKind
  buf : List Nat
deriving DecidableEq

/-- Errors `Chunk::read_into` can produce: an underlying read failing at
end of stream, the declared length exceeding the scratch capacity
(the `chunk of size .. exceeds size limit` error), or an unknown kind
byte (the `unknown FrameKind` error from `ChunkKind::from_u8`). -/
inductive ReadErr
  | eof
  | oversized (len cap : Nat)
  | badKind (b : Nat)
deriving DecidableEq

/-- Result of `Chunk::read_into`: either a decoded chunk together with the
unread remainder of the stream, or an error together with the number of
bytes consumed from the stream before failing. -/
inductive ChunkRead
  | ok (kind : ChunkKind) (payload rest : List Nat)
  | err (e : ReadErr) (consumed : Nat)
deriving DecidableEq

/-- `Chunk::read_into(r, buf)` over a byte stream `s` with a scratch buffer
of capacity `cap` (`buf.len()` in the source).  Mirrors the source order of
operations exactly: read 1 kind byte, read a 4-byte LE length, reject if
`len > cap`, read exactly `len` payload bytes, and only then validate the
kind byte with `ChunkKind::from_u8`.  On failure the second component
records how many bytes were consumed (a failing `read_exact` consumes the
whole remainder in this list model). -/
def Chunk.read_into (s : List Nat) (cap : Nat) : ChunkRead :=
  match s with
  | [] => .err .eof 0
  | b :: rest =>
    if rest.length < 4 then .err .eof (1 + rest.length)
    else
      let len := u32leDec rest
      if cap < len then .err (.oversized len cap) 5
      else if (rest.drop 4).length < len then .err .eof (5 + (rest.drop 4).length)
      else
        match ChunkKind.from_u8 b with
        | none => .err (.badKind b) (5 + len)
        | some k => .ok k ((rest.drop 4).take len) ((rest.drop 4).drop len)

/-- The byte image of one frame: `1 byte kind tag | u32 LE length | payload`,
with the length field truncated by the `self.buf.len() as u32` cast. -/
def frameBytes (c : Chunk) : List Nat :=
  c.kind.toByte :: (u32le (c.buf.length % 4294967296) ++ c.buf)

theorem drop4_cons (a b c d : Nat) (l : List Nat) :
    (a :: b :: c :: d :: l).drop 4 = l := rfl

/-- Framing: decoding a stream that starts with a well-formed frame yields
that frame's kind and payload and leaves exactly the trailing bytes. -/
theorem read_into_frame (k : ChunkKind) (p rest : List Nat) (cap : Nat)
    (hcap : p.length ≤ cap) (hlt : p.length < 4294967296) :
    Chunk.read_into (frameBytes ⟨k, p⟩ ++ rest) cap = .ok k p rest := by
  have hdec : u32leDec (u32le (p.length % 4294967296) ++ (p ++ rest))
      = p.length := by
    rw [u32leDec_u32le_append]
    omega
  have hframe : frameBytes ⟨k, p⟩ ++ rest
      = k.toByte :: (u32le (p.length % 4294967296) ++ (p ++ rest)) := by
    simp [frameBytes]
  rw [hframe]
  have hlen4 : ¬ ((u32le (p.length % 4294967296) ++ (p ++ rest)).length < 4) := by
    simp [length_u32le]
  have hdrop : (u32le (p.length % 4294967296) ++ (p ++ rest)).drop 4 = p ++ rest := by
    simp only [u32le, List.cons_append, List.nil_append]
    exact drop4_cons _ _ _ _ _
  simp only [Chunk.read_into, hlen4, if_false, hdec, hdrop]
  have h1 : ¬ (cap < p.length) := by omega
  have h2 : ¬ ((p ++ rest).length < p.length) := by
    simp [List.length_append]
  simp only [h1, if_false, h2]
  have hkd : ChunkKind.from_u8 k.toByte = some k := by
    cases k <;> rfl
  simp only [hkd, if_false]
  rw [List.take_left, List.drop_left]

/-- C4: a frame declaring a length larger than the scratch capacity is
rejected with the oversize error after consuming exactly the kind byte and
the four length bytes, with no payload byte read. -/
theorem oversized_rejected_after_header_bytes (s : List Nat) (cap : Nat)
    (h5 : 5 ≤ s.length) (hover : cap < u32leDec (s.drop 1)) :
    Chunk.read_into s cap = .err (.oversized (u32leDec (s.drop 1)) cap) 5 := by
  match s with
  | [] => simp at h5
  | b :: rest =>
    have h4 : ¬ (rest.length < 4) := by
      simp at h5; omega
    simp only [List.drop_one, List.tail_cons] at hover
    simp only [Chunk.read_into, h4, if_false, hover, if_true, List.drop_one,
      List.tail_cons]

theorem oversized_rejected_after_header_bytes_case :
    Chunk.read_into [0, 255, 255, 255, 255] BUF_SIZE
      = .err (.oversized 4294967295 BUF_SIZE) 5 := by
  have h := oversized_rejected_after_header_bytes [0, 255, 255, 255, 255]
    BUF_SIZE (by decide) (by decide)
  simpa using h

/-- C5 counterexample: on the stream `[7, 0, 0, 0, 0]` (unknown kind 7,
declared length 0) `Chunk::read_into` does fail with the unknown-kind
error, but only after consuming all five header bytes: the kind byte is
validated last, not as a first step before the length field is read.  The
claim as stated would require failure after consuming exactly 1 byte. -/
theorem kind_checked_last_cex :
    Chunk.read_into [7, 0, 0, 0, 0] BUF_SIZE = .err (.badKind 7) 5 ∧
      Chunk.read_into [7, 0, 0, 0, 0] BUF_SIZE ≠ .err (.badKind 7) 1 := by
  constructor
  · decide
  · decide

/-- C5 amended: `Chunk::read_into` reads the kind byte first but validates
it last.  For a stream whose first byte is not a known kind, if the
declared length is within capacity and the payload bytes are available,
it fails with the unknown-kind error only after consuming the five header
bytes plus the whole declared payload. -/
theorem kind_checked_after_payload (s : List Nat) (cap b : Nat)
    (hhead : s.head? = some b) (hbad : ChunkKind.from_u8 b = none)
    (h5 : 5 ≤ s.length)
    (hcap : u32leDec (s.drop 1) ≤ cap)
    (hav : u32leDec (s.drop 1) + 5 ≤ s.length) :
    Chunk.read_into s cap = .err (.badKind b) (5 + u32leDec (s.drop 1)) := by
  match s with
  | [] => simp at hhead
  | b0 :: rest =>
    have hb : b0 = b := by simpa using hhead
    subst hb
    simp only [List.drop_one, List.tail_cons] at hcap hav
    have h4 : ¬ (rest.length < 4) := by
      simp at h5; omega
    have hc : ¬ (cap < u32leDec rest) := by omega
    have hlen : ¬ ((rest.drop 4).length < u32leDec rest) := by
      simp only [List.length_drop]
      simp at h5 hav
      omega
    simp only [Chunk.read_into, h4, if_false, hc, hlen, hbad, List.drop_one,
      List.tail_cons]

theorem kind_checked_after_payload_case :
    Chunk.read_into [9, 1, 0, 0, 0, 42] BUF_SIZE = .err (.badKind 9) 6 := by
  have h := kind_checked_after_payload [9, 1, 0, 0, 0, 42] BUF_SIZE 9
    (by decide) (by decide) (by decide) (by decide) (by decide)
  simpa using h

/-- Kinds of I/O errors a syscall can report: would-block, or any other
kind, identified by a code. -/
inductive EKind
  | wouldBlock
  | other (c : Nat)
deriving DecidableEq

/-- Result of one write call offered to a writer: either it accepted `n`
bytes, or it failed with an error of the given kind.  For the atomic
header writes (`write_u8`, `write_u32`) success means the whole atom was
accepted. -/
inductive WriteRes
  | ok (n : Nat)
  | fail (k : EKind)
deriving DecidableEq

/-- Environment for `Chunk::write_to`: the value of the shared stop flag
at each successive `stop.load` observation, and the result of each
successive write call on the writer. -/
structure WEnv where
  stop : Nat → Bool
  writeR : Nat → WriteRes

/-- How a `Chunk::write_to` run ended: out of fuel, returned `Ok(())`, or
returned an I/O error of the given kind. -/
inductive WriteOutcome
  | spent
  | finished
  | failed (k : EKind)
deriving DecidableEq

/-- Observable outcome of a `Chunk::write_to` run: the outcome, the bytes
accepted by the writer, the number of `PIPE_POLL_DURATION` sleeps
performed, and whether any `stop.load` observation returned true. -/
structure WOut where
  outcome : WriteOutcome
  written : List Nat
  sleeps : Nat
  stopSeen : Bool
deriving DecidableEq

/-- Position inside `Chunk::write_to`: the kind-tag loop, the
length-field loop, or the payload loop with its remaining slice
(nonempty by construction, matching the `while to_write.len() > 0`
guard). -/
inductive WPhase
  | tag
  | len
  | payload (q : Nat) (qs : List Nat)
deriving DecidableEq

/-- One-loop-head-per-fuel-unit model of `Chunk::write_to`.  Each loop
iteration first observes the stop flag (returning `Ok` immediately when it
is set), then attempts the write for the current step; a would-block
failure sleeps `PIPE_POLL_DURATION` and retries the same step, any other
failure is returned, and success advances to the next step.  When the
length field is written and the payload is empty, or when a payload write
drains the slice, the function returns `Ok` without a further stop
check, matching the `while` guards in the source.  On a failed atomic
header write no partial bytes are recorded. -/
def Chunk.write_to_go (env : WEnv) (c : Chunk) :
    Nat → Nat → Nat → List Nat → Nat → WPhase → WOut
  | 0, _, _, written, sl, _ => ⟨.spent, written, sl, false⟩
  | fuel+1, si, wi, written, sl, ph =>
    match env.stop si with
    | true => ⟨.finished, written, sl, true⟩
    | false =>
      match ph with
      | .tag =>
        match env.writeR wi with
        | .fail .wouldBlock =>
          Chunk.write_to_go env c fuel (si+1) (wi+1) written (sl+1) .tag
        | .fail k => ⟨.failed k, written, sl, false⟩
        | .ok _ =>
          Chunk.write_to_go env c fuel (si+1) (wi+1)
            (written ++ [c.kind.toByte]) sl .len
      | .len =>
        match env.writeR wi with
        | .fail .wouldBlock =>
          Chunk.write_to_go env c fuel (si+1) (wi+1) written (sl+1) .len
        | .fail k => ⟨.failed k, written, sl, false⟩
        | .ok _ =>
          match c.buf with
          | [] =>
            ⟨.finished, written ++ u32le (c.buf.length % 4294967296), sl, false⟩
          | b :: bs =>
            Chunk.write_to_go env c fuel (si+1) (wi+1)
              (written ++ u32le (c.buf.length % 4294967296)) sl (.payload b bs)
      | .payload q qs =>
        match env.writeR wi with
        | .fail .wouldBlock =>
          Chunk.write_to_go env c fuel (si+1) (wi+1) written (sl+1)
            (.payload q qs)
        | .fail k => ⟨.failed k, written, sl, false⟩
        | .ok n =>
          match (q :: qs).drop n with
          | [] =>
            ⟨.finished, written ++ (q :: qs).take n, sl, false⟩
          | r :: rs =>
            Chunk.write_to_go env c fuel (si+1) (wi+1)
              (written ++ (q :: qs).take n) sl (.payload r rs)

/-- `Chunk::write_to` entered at the kind-tag loop with fresh counters. -/
def Chunk.write_to (c : Chunk) (env : WEnv) (fuel : Nat) : WOut :=
  Chunk.write_to_go env c fuel 0 0 [] 0 .tag

/-- A writer that never blocks and accepts up to `m` bytes per call, under
a stop flag that stays false. -/
def wAcceptEnv (m : Nat) : WEnv :=
  ⟨fun _ => false, fun _ => WriteRes.ok m⟩

/-- Under a false stop flag and a writer accepting everything offered,
`Chunk::write_to` completes in three loop iterations and the bytes on the
wire are exactly one frame. -/
theorem write_to_go_accept (c : Chunk) (m : Nat) (hm : c.buf.length ≤ m)
    (fuel si wi : Nat) (written : List Nat) (sl : Nat) (hf : 3 ≤ fuel) :
    Chunk.write_to_go (wAcceptEnv m) c fuel si wi written sl .tag
      = ⟨.finished, written ++ frameBytes c, sl, false⟩ := by
  obtain ⟨f, rfl⟩ : ∃ f, fuel = f + 3 := ⟨fuel - 3, by omega⟩
  show Chunk.write_to_go (wAcceptEnv m) c (f + 1 + 1 + 1) si wi written sl .tag = _
  match hbuf : c.buf with
  | [] =>
    simp [Chunk.write_to_go, wAcceptEnv, frameBytes, hbuf]
  | b :: bs =>
    have hlen : (b :: bs).length ≤ m := hbuf ▸ hm
    have hdrop : (b :: bs).drop m = [] := List.drop_eq_nil_of_le hlen
    have htake : (b :: bs).take m = b :: bs := List.take_of_length_le hlen
    simp [Chunk.write_to_go, wAcceptEnv, frameBytes, hbuf, hdrop, htake]

theorem write_to_go_contract (env : WEnv) (c : Chunk) (fuel : Nat) :
    ∀ (si wi : Nat) (written : List Nat) (sl : Nat) (ph : WPhase),
      ((Chunk.write_to_go env c fuel si wi written sl ph).stopSeen = true →
        (Chunk.write_to_go env c fuel si wi written sl ph).outcome = .finished) ∧
      (∀ k, (Chunk.write_to_go env c fuel si wi written sl ph).outcome = .failed k →
        k ≠ .wouldBlock ∧ ∃ i, env.writeR i = .fail k) ∧
      (sl ≤ (Chunk.write_to_go env c fuel si wi written sl ph).sleeps) ∧
      (sl < (Chunk.write_to_go env c fuel si wi written sl ph).sleeps →
        ∃ i, env.writeR i = .fail .wouldBlock) := by
  induction fuel with
  | zero =>
    intro si wi written sl ph
    simp [Chunk.write_to_go]
  | succ f ih =>
    intro si wi written sl ph
    simp only [Chunk.write_to_go]
    cases hstop : env.stop si with
    | true => simp
    | false =>
      dsimp only
      cases ph with
      | tag =>
        cases hw : env.writeR wi with
        | ok n =>
          dsimp only
          exact ih (si+1) (wi+1) (written ++ [c.kind.toByte]) sl .len
        | fail k =>
          cases k with
          | wouldBlock =>
            dsimp only
            have h := ih (si+1) (wi+1) written (sl+1) .tag
            exact ⟨h.1, h.2.1, Nat.le_of_succ_le h.2.2.1,
              fun _ => ⟨wi, hw⟩⟩
          | other code =>
            dsimp only
            refine ⟨by simp, ?_, Nat.le_refl sl,
              fun h => (Nat.lt_irrefl sl h).elim⟩
            intro k hk
            injection hk with h2
            subst h2
            exact ⟨by simp, wi, hw⟩
      | len =>
        cases hw : env.writeR wi with
        | ok n =>
          dsimp only
          cases c.buf with
          | nil =>
            dsimp only
            refine ⟨by simp, by simp, Nat.le_refl sl,
              fun h => (Nat.lt_irrefl sl h).elim⟩
          | cons b bs =>
            dsimp only
            exact ih (si+1) (wi+1)
              (written ++ u32le ((b :: bs).length % 4294967296)) sl
              (.payload b bs)
        | fail k =>
          cases k with
          | wouldBlock =>
            dsimp only
            have h := ih (si+1) (wi+1) written (sl+1) .len
            exact ⟨h.1, h.2.1, Nat.le_of_succ_le h.2.2.1,
              fun _ => ⟨wi, hw⟩⟩
          | other code =>
            dsimp only
            refine ⟨by simp, ?_, Nat.le_refl sl,
              fun h => (Nat.lt_irrefl sl h).elim⟩
            intro k hk
            injection hk with h2
            subst h2
            exact ⟨by simp, wi, hw⟩
      | payload q qs =>
        cases hw : env.writeR wi with
        | ok n =>
          dsimp only
          cases (q :: qs).drop n with
          | nil =>
            dsimp only
            refine ⟨by simp, by simp, Nat.le_refl sl,
              fun h => (Nat.lt_irrefl sl h).elim⟩
          | cons r rs =>
            dsimp only
            exact ih (si+1) (wi+1) (written ++ (q :: qs).take n) sl
              (.payload r rs)
        | fail k =>
          cases k with
          | wouldBlock =>
            dsimp only
            have h := ih (si+1) (wi+1) written (sl+1) (.payload q qs)
            exact ⟨h.1, h.2.1, Nat.le_of_succ_le h.2.2.1,
              fun _ => ⟨wi, hw⟩⟩
          | other code =>
            dsimp only
            refine ⟨by simp, ?_, Nat.le_refl sl,
              fun h => (Nat.lt_irrefl sl h).elim⟩
            intro k hk
            injection hk with h2
            subst h2
            exact ⟨by simp, wi, hw⟩

/-- C6: for every environment (stop-flag schedule and writer behaviour),
every chunk and every fuel bound, a `Chunk::write_to` run (a) returns
`Ok(())` as soon as a stop-flag observation reads true, even mid-frame;
(b) never surfaces a would-block error, and any sleep it performs was
caused by a would-block write result (the step is retried after the sleep
and a fresh stop check); and (c) any error it returns is a non-would-block
error reported by some write call. -/
theorem write_to_stop_and_error_contract (env : WEnv) (c : Chunk) (fuel : Nat) :
    ((c.write_to env fuel).stopSeen = true →
      (c.write_to env fuel).outcome = .finished) ∧
    ((c.write_to env fuel).outcome ≠ .failed .wouldBlock) ∧
    (∀ k, (c.write_to env fuel).outcome = .failed k →
      k ≠ .wouldBlock ∧ ∃ i, env.writeR i = .fail k) ∧
    (0 < (c.write_to env fuel).sleeps → ∃ i, env.writeR i = .fail .wouldBlock) := by
  have h := write_to_go_contract env c fuel 0 0 [] 0 .tag
  refine ⟨h.1, ?_, h.2.1, h.2.2.2⟩
  intro hbad
  exact ((h.2.1 _ hbad).1 rfl).elim

/-- A concrete run exercising C6: the writer reports would-block once and
the stop flag turns on at the second observation, so `write_to` sleeps
once and then returns success with the frame unsent. -/
theorem write_to_stop_and_error_contract_case :
    (Chunk.write_to ⟨.Data, [7]⟩
        ⟨fun i => decide (1 ≤ i), fun _ => WriteRes.fail .wouldBlock⟩ 5).outcome
      = .finished ∧
    (Chunk.write_to ⟨.Data, [7]⟩
        ⟨fun i => decide (1 ≤ i), fun _ => WriteRes.fail .wouldBlock⟩ 5).written
      = [] := by
  refine ⟨(write_to_stop_and_error_contract
    ⟨fun i => decide (1 ≤ i), fun _ => WriteRes.fail .wouldBlock⟩
    ⟨.Data, [7]⟩ 5).1 (by decide), by decide⟩

/-- C2: writing a chunk with the stop flag always false to a writer that
accepts everything offered, then decoding the resulting bytes with a
scratch buffer of capacity `BUF_SIZE`, yields exactly the original kind
and payload (and consumes the whole frame), for every payload of length
at most `BUF_SIZE`. -/
theorem chunk_write_read_roundtrip (k : ChunkKind) (p : List Nat)
    (m fuel : Nat) (hp : p.length ≤ BUF_SIZE) (hm : p.length ≤ m)
    (hf : 3 ≤ fuel) :
    (Chunk.write_to ⟨k, p⟩ (wAcceptEnv m) fuel).outcome = .finished ∧
    Chunk.read_into ((Chunk.write_to ⟨k, p⟩ (wAcceptEnv m) fuel).written)
        BUF_SIZE
      = .ok k p [] := by
  have hw : Chunk.write_to ⟨k, p⟩ (wAcceptEnv m) fuel
      = ⟨.finished, [] ++ frameBytes ⟨k, p⟩, 0, false⟩ :=
    write_to_go_accept ⟨k, p⟩ m hm fuel 0 0 [] 0 hf
  rw [hw]
  refine ⟨rfl, ?_⟩
  show Chunk.read_into ([] ++ frameBytes ⟨k, p⟩) BUF_SIZE = .ok k p []
  rw [List.nil_append, ← List.append_nil (frameBytes ⟨k, p⟩)]
  exact read_into_frame k p [] BUF_SIZE hp (by simp [BUF_SIZE] at hp; omega)

theorem chunk_write_read_roundtrip_case :
    (Chunk.write_to ⟨.Data, [104, 105]⟩ (wAcceptEnv 2) 3).outcome = .finished ∧
    Chunk.read_into ((Chunk.write_to ⟨.Data, [104, 105]⟩ (wAcceptEnv 2) 3).written)
        BUF_SIZE
      = .ok ChunkKind.Data [104, 105] [] :=
  chunk_write_read_roundtrip ChunkKind.Data [104, 105] 2 3 (by decide) (by decide)
    (by decide)

/-- C10: `Chunk::write_to` computes the length field as
`buf.len() as u32`, i.e. the payload length mod 2^32, while still writing
the whole payload: for a payload of length at least 2^32, the run still
succeeds with no error, the writer receives all payload bytes, and the
declared length field in the emitted frame differs from the number of
payload bytes written. -/
theorem write_to_truncates_length_field (k : ChunkKind) (p : List Nat)
    (h : 4294967296 ≤ p.length) :
    (Chunk.write_to ⟨k, p⟩ (wAcceptEnv p.length) 3).outcome = .finished ∧
    ((Chunk.write_to ⟨k, p⟩ (wAcceptEnv p.length) 3).written.drop 5).length
      = p.length ∧
    u32leDec ((Chunk.write_to ⟨k, p⟩ (wAcceptEnv p.length) 3).written.drop 1)
      = p.length % 4294967296 ∧
    u32leDec ((Chunk.write_to ⟨k, p⟩ (wAcceptEnv p.length) 3).written.drop 1)
      ≠ ((Chunk.write_to ⟨k, p⟩ (wAcceptEnv p.length) 3).written.drop 5).length := by
  have hw : Chunk.write_to ⟨k, p⟩ (wAcceptEnv p.length) 3
      = ⟨.finished, [] ++ frameBytes ⟨k, p⟩, 0, false⟩ :=
    write_to_go_accept ⟨k, p⟩ p.length le_rfl 3 0 0 [] 0 le_rfl
  rw [hw]
  have hdrop1 : ([] ++ frameBytes ⟨k, p⟩).drop 1
      = u32le (p.length % 4294967296) ++ p := by
    simp [frameBytes]
  have hdrop5 : ([] ++ frameBytes ⟨k, p⟩).drop 5 = p := by
    simp only [List.nil_append, frameBytes, u32le, List.cons_append,
      List.nil_append]
    show (ChunkKind.toByte k :: _ :: _ :: _ :: _ :: p).drop 5 = p
    rfl
  refine ⟨rfl, ?_, ?_, ?_⟩
  · rw [hdrop5]
  · rw [hdrop1, u32leDec_u32le_append]
    omega
  · rw [hdrop1, hdrop5, u32leDec_u32le_append]
    omega

theorem write_to_truncates_length_field_case :
    (Chunk.write_to ⟨ChunkKind.Data, List.replicate 4294967296 0⟩
        (wAcceptEnv (List.replicate 4294967296 0).length) 3).outcome
      = .finished ∧
    ((Chunk.write_to ⟨ChunkKind.Data, List.replicate 4294967296 0⟩
        (wAcceptEnv (List.replicate 4294967296 0).length) 3).written.drop 5).length
      = (List.replicate 4294967296 0).length ∧
    u32leDec ((Chunk.write_to ⟨ChunkKind.Data, List.replicate 4294967296 0⟩
        (wAcceptEnv (List.replicate 4294967296 0).length) 3).written.drop 1)
      = (List.replicate 4294967296 0).length % 4294967296 ∧
    u32leDec ((Chunk.write_to ⟨ChunkKind.Data, List.replicate 4294967296 0⟩
        (wAcceptEnv (List.replicate 4294967296 0).length) 3).written.drop 1)
      ≠ ((Chunk.write_to ⟨ChunkKind.Data, List.replicate 4294967296 0⟩
        (wAcceptEnv (List.replicate 4294967296 0).length) 3).written.drop 5).length :=
  write_to_truncates_length_field ChunkKind.Data (List.replicate 4294967296 0)
    (by rw [List.length_replicate])

/-- Result of one `select` call on stdout in the output pump: stdout is
write-ready, the timeout elapsed (or the descriptor is not in the ready
set), or the call itself failed. -/
inductive SelRes
  | ready
  | notReady
  | fail (k : EKind)
deriving DecidableEq

/-- Environment for the sock-to-stdout worker of `Client::pipe_bytes`:
the stop-flag observations, the per-call `select` results, the per-call
`stdout.write` results, and the per-call `stdout.flush` results (`none`
is success). -/
structure OutEnv where
  stop : Nat → Bool
  selR : Nat → SelRes
  writeR : Nat → WriteRes
  flushR : Nat → Option EKind

/-- How a sock-to-stdout worker run ended: out of fuel, returned `Ok(())`
after observing stop, or surfaced an error from the socket read, the
`select`, or the stdout write.  (There is deliberately no flush-error
outcome: the source swallows every flush error, see `flushDbg`.) -/
inductive OutPumpOutcome
  | spent
  | finished
  | failedRead (e : ReadErr)
  | failedSelect (k : EKind)
  | failedWrite (k : EKind)
deriving DecidableEq

/-- Observable outcome of a sock-to-stdout worker run: the outcome, the
bytes written to stdout, and the number of times the post-flush debug
statement ran. -/
structure OutPumpOut where
  outcome : OutPumpOutcome
  out : List Nat
  dbg : Nat
deriving DecidableEq

/-- The flush step at the end of the Data branch (protocol.rs lines
509-519), translated exactly: on a would-block flush error the code
`continue`s, skipping only the debug statement; on any other flush error
the `if let` falls through with no `return`, so the error is dropped and
the debug statement runs; on success the debug statement runs.  In every
case the loop continues; the only observable difference is the debug
counter. -/
def flushDbg (env : OutEnv) (fI dbg : Nat) : Nat :=
  match env.flushR fI with
  | some EKind.wouldBlock => dbg
  | some (EKind.other _) => dbg + 1
  | none => dbg + 1

/-- Position inside the sock-to-stdout loop: at the top (about to read a
chunk), or draining a Data payload with a nonempty remaining slice
(matching the `while to_write.len() > 0` guard; flushing happens inline
when the slice empties, with no intervening stop check, as in the
source). -/
inductive OutPhase
  | top
  | drain (q : Nat) (qs : List Nat)
deriving DecidableEq

/-- One-loop-head-per-fuel-unit model of the sock-to-stdout worker of
`Client::pipe_bytes`.  Each iteration observes the stop flag, then either
reads a chunk from the socket stream (errors surfaced; Heartbeat payloads
discarded; Data payloads entering the drain loop) or, in the drain loop,
selects on stdout (not-ready retries the loop from its stop check;
failures surfaced) and writes (failures of any kind surfaced, short
writes advance the slice).  When a Data payload is fully drained —
including the empty-payload case — stdout is flushed via `flushDbg`
within the same iteration and the loop returns to the top. -/
def sockToStdout (env : OutEnv) (cap : Nat) :
    Nat → Nat → List Nat → Nat → Nat → Nat → List Nat → Nat → OutPhase →
      OutPumpOut
  | 0, _, _, _, _, _, out, dbg, _ => ⟨.spent, out, dbg⟩
  | fuel+1, si, stream, selI, wI, fI, out, dbg, ph =>
    match env.stop si with
    | true => ⟨.finished, out, dbg⟩
    | false =>
      match ph with
      | .top =>
        match Chunk.read_into stream cap with
        | .err e _ => ⟨.failedRead e, out, dbg⟩
        | .ok k p rest =>
          match k with
          | .Heartbeat =>
            sockToStdout env cap fuel (si+1) rest selI wI fI out dbg .top
          | .Data =>
            match p with
            | [] =>
              sockToStdout env cap fuel (si+1) rest selI wI (fI+1) out
                (flushDbg env fI dbg) .top
            | q :: qs =>
              sockToStdout env cap fuel (si+1) rest selI wI fI out dbg
                (.drain q qs)
      | .drain q qs =>
        match env.selR selI with
        | .fail k => ⟨.failedSelect k, out, dbg⟩
        | .notReady =>
          sockToStdout env cap fuel (si+1) stream (selI+1) wI fI out dbg
            (.drain q qs)
        | .ready =>
          match env.writeR wI with
          | .fail k => ⟨.failedWrite k, out, dbg⟩
          | .ok n =>
            match (q :: qs).drop n with
            | [] =>
              sockToStdout env cap fuel (si+1) stream (selI+1) (wI+1) (fI+1)
                (out ++ (q :: qs).take n) (flushDbg env fI dbg) .top
            | r :: rs =>
              sockToStdout env cap fuel (si+1) stream (selI+1) (wI+1) fI
                (out ++ (q :: qs).take n) dbg (.drain r rs)

/-- C7 amended, part 1: the flush results have no influence whatsoever on
the worker's outcome or on the bytes written to stdout — every flush
error, would-block or not, is swallowed and the pump continues.  Two runs
differing only in the flush results (and in the starting debug counter)
end with the same outcome and the same stdout bytes. -/
theorem pump_ignores_flush_results (env : OutEnv) (f2 : Nat → Option EKind)
    (cap : Nat) (fuel : Nat) :
    ∀ (si : Nat) (stream : List Nat) (selI wI fI : Nat) (out : List Nat)
      (dbg1 dbg2 : Nat) (ph : OutPhase),
      (sockToStdout env cap fuel si stream selI wI fI out dbg1 ph).outcome
        = (sockToStdout ⟨env.stop, env.selR, env.writeR, f2⟩ cap fuel si
            stream selI wI fI out dbg2 ph).outcome ∧
      (sockToStdout env cap fuel si stream selI wI fI out dbg1 ph).out
        = (sockToStdout ⟨env.stop, env.selR, env.writeR, f2⟩ cap fuel si
            stream selI wI fI out dbg2 ph).out := by
  induction fuel with
  | zero =>
    intro si stream selI wI fI out dbg1 dbg2 ph
    exact ⟨rfl, rfl⟩
  | succ f ih =>
    intro si stream selI wI fI out dbg1 dbg2 ph
    simp only [sockToStdout]
    cases hstop : env.stop si with
    | true => exact ⟨rfl, rfl⟩
    | false =>
      dsimp only
      cases ph with
      | top =>
        cases hr : Chunk.read_into stream cap with
        | err e n => exact ⟨rfl, rfl⟩
        | ok k p rest =>
          cases k with
          | Heartbeat =>
            dsimp only
            exact ih (si+1) rest selI wI fI out dbg1 dbg2 .top
          | Data =>
            cases p with
            | nil =>
              dsimp only
              exact ih (si+1) rest selI wI (fI+1) out
                (flushDbg env fI dbg1)
                (flushDbg ⟨env.stop, env.selR, env.writeR, f2⟩ fI dbg2) .top
            | cons q qs =>
              dsimp only
              exact ih (si+1) rest selI wI fI out dbg1 dbg2 (.drain q qs)
      | drain q qs =>
        cases hsel : env.selR selI with
        | fail k => exact ⟨rfl, rfl⟩
        | notReady =>
          dsimp only
          exact ih (si+1) stream (selI+1) wI fI out dbg1 dbg2 (.drain q qs)
        | ready =>
          dsimp only
          cases hw : env.writeR wI with
          | fail k => exact ⟨rfl, rfl⟩
          | ok n =>
            dsimp only
            cases (q :: qs).drop n with
            | nil =>
              dsimp only
              exact ih (si+1) stream (selI+1) (wI+1) (fI+1)
                (out ++ (q :: qs).take n) (flushDbg env fI dbg1)
                (flushDbg ⟨env.stop, env.selR, env.writeR, f2⟩ fI dbg2) .top
            | cons r rs =>
              dsimp only
              exact ih (si+1) stream (selI+1) (wI+1) fI
                (out ++ (q :: qs).take n) dbg1 dbg2 (.drain r rs)

/-- C7 counterexample, part 2: a concrete run refuting the claim that a
non-would-block flush error is surfaced and terminates the pump.  The
socket stream carries two Data frames with payloads `[1]` and `[2]`;
every stdout flush fails with a non-would-block error (kind code 0).
Had the first flush error been surfaced, the run would end with that
error and stdout would hold only `[1]`.  Instead the pump continues,
writes the second payload too, and ends with the socket read hitting end
of stream. -/
theorem flush_error_swallowed_cex :
    (sockToStdout
        ⟨fun _ => false, fun _ => SelRes.ready, fun _ => WriteRes.ok BUF_SIZE,
          fun _ => some (EKind.other 0)⟩
        BUF_SIZE 8 0 [0, 1, 0, 0, 0, 1, 0, 1, 0, 0, 0, 2] 0 0 0 [] 0
        .top).out = [1, 2] ∧
    (sockToStdout
        ⟨fun _ => false, fun _ => SelRes.ready, fun _ => WriteRes.ok BUF_SIZE,
          fun _ => some (EKind.other 0)⟩
        BUF_SIZE 8 0 [0, 1, 0, 0, 0, 1, 0, 1, 0, 0, 0, 2] 0 0 0 [] 0
        .top).outcome = .failedRead .eof := by
  constructor
  · decide
  · decide

/-- The environment the heartbeat-invisibility property is stated under:
the stop flag stays false, stdout is always select-ready, every stdout
write accepts up to `BUF_SIZE` bytes, and flushes succeed. -/
def outAccept : OutEnv :=
  ⟨fun _ => false, fun _ => SelRes.ready, fun _ => WriteRes.ok BUF_SIZE,
    fun _ => none⟩

/-- The concatenated wire image of a sequence of chunks, each given as a
kind and a payload. -/
def encodeChunks : List (ChunkKind × List Nat) → List Nat
  | [] => []
  | c :: cs => frameBytes ⟨c.1, c.2⟩ ++ encodeChunks cs

/-- The concatenation of the payloads of only the Data chunks, in order. -/
def dataBytes : List (ChunkKind × List Nat) → List Nat
  | [] => []
  | (ChunkKind.Data, p) :: cs => p ++ dataBytes cs
  | (ChunkKind.Heartbeat, _) :: cs => dataBytes cs

/-- Loop iterations the accepting-environment pump spends per chunk: one
for the read (which also flushes for an empty Data payload), plus one
drain-and-flush iteration for a nonempty Data payload. -/
def pumpCost : List (ChunkKind × List Nat) → Nat
  | [] => 0
  | (ChunkKind.Heartbeat, _) :: cs => 1 + pumpCost cs
  | (ChunkKind.Data, []) :: cs => 1 + pumpCost cs
  | (ChunkKind.Data, _ :: _) :: cs => 2 + pumpCost cs

theorem sockToStdout_chunks (cs : List (ChunkKind × List Nat))
    (hlen : ∀ c ∈ cs, (c.2).length ≤ BUF_SIZE) :
    ∀ (fuel si selI wI fI : Nat) (out : List Nat) (dbg : Nat),
      pumpCost cs < fuel →
      (sockToStdout outAccept BUF_SIZE fuel si (encodeChunks cs) selI wI fI
          out dbg .top).outcome = .failedRead .eof ∧
      (sockToStdout outAccept BUF_SIZE fuel si (encodeChunks cs) selI wI fI
          out dbg .top).out = out ++ dataBytes cs := by
  induction cs with
  | nil =>
    intro fuel si selI wI fI out dbg hfuel
    match fuel with
    | f + 1 =>
      simp [sockToStdout, outAccept, encodeChunks, dataBytes, Chunk.read_into]
  | cons c cs ih =>
    obtain ⟨k, p⟩ := c
    intro fuel si selI wI fI out dbg hfuel
    have hp : p.length ≤ BUF_SIZE := by
      simpa using hlen (k, p) (by simp)
    have hlt : p.length < 4294967296 := by
      have := hp
      simp only [BUF_SIZE] at this
      omega
    have hr : Chunk.read_into (encodeChunks ((k, p) :: cs)) BUF_SIZE
        = .ok k p (encodeChunks cs) := by
      show Chunk.read_into (frameBytes ⟨k, p⟩ ++ encodeChunks cs) BUF_SIZE = _
      exact read_into_frame k p (encodeChunks cs) BUF_SIZE hp hlt
    have hlen2 : ∀ c ∈ cs, (c.2).length ≤ BUF_SIZE :=
      fun c hc => hlen c (by simp [hc])
    cases k with
    | Heartbeat =>
      have hcost : pumpCost cs + 1 ≤ pumpCost ((ChunkKind.Heartbeat, p) :: cs) := by
        simp only [pumpCost]
        omega
      match fuel with
      | f + 1 =>
        simp only [sockToStdout, outAccept]
        rw [hr]
        dsimp only
        have h := ih hlen2 f (si+1) selI wI fI out dbg (by omega)
        simp only [outAccept] at h
        refine ⟨h.1, ?_⟩
        rw [h.2]
        simp [dataBytes]
    | Data =>
      cases p with
      | nil =>
        have hcost : pumpCost cs + 1 ≤ pumpCost ((ChunkKind.Data, []) :: cs) := by
          simp only [pumpCost]
          omega
        match fuel with
        | f + 1 =>
          simp only [sockToStdout, outAccept]
          rw [hr]
          dsimp only
          have h := ih hlen2 f (si+1) selI wI (fI+1) out
            (flushDbg outAccept fI dbg) (by omega)
          simp only [outAccept] at h
          refine ⟨h.1, ?_⟩
          rw [h.2]
          simp [dataBytes]
      | cons q qs =>
        have hcost : pumpCost cs + 2 ≤ pumpCost ((ChunkKind.Data, q :: qs) :: cs) := by
          simp only [pumpCost]
          omega
        match fuel with
        | f + 1 =>
          have hf2 : 1 ≤ f := by omega
          match f, hf2 with
          | f2 + 1, _ =>
            simp only [sockToStdout, outAccept]
            rw [hr]
            dsimp only
            have hdrop : (q :: qs).drop BUF_SIZE = [] :=
              List.drop_eq_nil_of_le hp
            have htake : (q :: qs).take BUF_SIZE = q :: qs :=
              List.take_of_length_le hp
            rw [hdrop, htake]
            dsimp only
            have h := ih hlen2 f2 (si+1+1) (selI+1) (wI+1) (fI+1)
              (out ++ (q :: qs)) (flushDbg outAccept fI dbg) (by omega)
            simp only [outAccept] at h
            refine ⟨h.1, ?_⟩
            rw [h.2]
            simp [dataBytes]

/-- C3: feeding the sock-to-stdout worker any interleaved sequence of
well-formed Data and Heartbeat chunks (payloads at most `BUF_SIZE`, the
worker's scratch capacity), under a false stop flag and an accepting
stdout, writes to stdout exactly the concatenation of the payloads of the
Data chunks in order — no byte of any Heartbeat payload reaches stdout —
and then ends with the read hitting end of stream. -/
theorem heartbeat_payloads_never_reach_stdout
    (cs : List (ChunkKind × List Nat)) (fuel : Nat)
    (hlen : ∀ c ∈ cs, (c.2).length ≤ BUF_SIZE)
    (hfuel : pumpCost cs < fuel) :
    (sockToStdout outAccept BUF_SIZE fuel 0 (encodeChunks cs) 0 0 0 [] 0
        .top).out = dataBytes cs ∧
    (sockToStdout outAccept BUF_SIZE fuel 0 (encodeChunks cs) 0 0 0 [] 0
        .top).outcome = .failedRead .eof := by
  have h := sockToStdout_chunks cs hlen fuel 0 0 0 0 [] 0 hfuel
  exact ⟨by rw [h.2]; simp, h.1⟩

/-- The attach scenario from the spec: `Data("hello")`, `Heartbeat("")`,
`Data(" world")` produce exactly the bytes of `"hello world"` on
stdout. -/
theorem heartbeat_payloads_never_reach_stdout_case :
    (sockToStdout outAccept BUF_SIZE 8 0
        (encodeChunks
          [(ChunkKind.Data, [104, 101, 108, 108, 111]),
           (ChunkKind.Heartbeat, []),
           (ChunkKind.Data, [32, 119, 111, 114, 108, 100])]) 0 0 0 [] 0
        .top).out
      = [104, 101, 108, 108, 111, 32, 119, 111, 114, 108, 100] ∧
    (sockToStdout outAccept BUF_SIZE 8 0
        (encodeChunks
          [(ChunkKind.Data, [104, 101, 108, 108, 111]),
           (ChunkKind.Heartbeat, []),
           (ChunkKind.Data, [32, 119, 111, 114, 108, 100])]) 0 0 0 [] 0
        .top).outcome = .failedRead .eof := by
  have h := heartbeat_payloads_never_reach_stdout
    [(ChunkKind.Data, [104, 101, 108, 108, 111]),
     (ChunkKind.Heartbeat, []),
     (ChunkKind.Data, [32, 119, 111, 114, 108, 100])] 8
    (by decide) (by decide)
  exact ⟨by rw [h.1]; rfl, h.2⟩

/-- Result of one nonblocking `stdin.read` call in the input pump: some
bytes were read (`[]` is end-of-file), the read would block, or it failed
with another error kind. -/
inductive ReadRes
  | bytes (bs : List Nat)
  | wouldBlock
  | fail (k : EKind)
deriving DecidableEq

/-- Environment for the stdin-to-sock worker of `Client::pipe_bytes`:
the stop-flag observations, the per-call `stdin.read` results, the
per-call socket write results, and the per-call socket flush results
(`none` is success). -/
structure InEnv where
  stop : Nat → Bool
  readR : Nat → ReadRes
  writeR : Nat → WriteRes
  flushR : Nat → Option EKind

/-- How a stdin-to-sock worker run ended: out of fuel, returned `Ok(())`
after observing stop, or surfaced an error from the stdin read, the
socket write, or the socket flush (the source surfaces every socket
write and flush error, would-block included). -/
inductive InPumpOutcome
  | spent
  | finished
  | failedRead (k : EKind)
  | failedWrite (k : EKind)
  | failedFlush (k : EKind)
deriving DecidableEq

/-- Observable outcome of a stdin-to-sock worker run: the outcome, the
bytes sent to the socket, the number of `PIPE_POLL_DURATION` sleeps, and
the number of successful flushes. -/
structure InPumpOut where
  outcome : InPumpOutcome
  sent : List Nat
  sleeps : Nat
  flushes : Nat
deriving DecidableEq

/-- Position inside the stdin-to-sock loop: at the top (about to read
stdin), or inside the inner write loop with a nonempty remaining slice
(matching the `while to_write.len() > 0` guard). -/
inductive InPhase
  | outer
  | wloop (q : Nat) (qs : List Nat)
deriving DecidableEq

/-- One-loop-head-per-fuel-unit model of the stdin-to-sock worker of
`Client::pipe_bytes`.  Each outer iteration observes the stop flag, then
reads stdin: would-block sleeps `PIPE_POLL_DURATION` and retries from
the stop check; any other read error is surfaced; read bytes enter the
inner write loop (an empty read — end-of-file — skips it).  Each inner
iteration observes the stop flag and writes to the socket, surfacing
every write error and advancing over short writes.  When the slice is
drained (also when it was empty), the socket is flushed within the same
iteration — flush errors surfaced — and the loop returns to the top. -/
def stdinToSock (env : InEnv) :
    Nat → Nat → Nat → Nat → Nat → List Nat → Nat → Nat → InPhase → InPumpOut
  | 0, _, _, _, _, sent, sl, fl, _ => ⟨.spent, sent, sl, fl⟩
  | fuel+1, si, ri, wi, fi, sent, sl, fl, ph =>
    match env.stop si with
    | true => ⟨.finished, sent, sl, fl⟩
    | false =>
      match ph with
      | .outer =>
        match env.readR ri with
        | .wouldBlock =>
          stdinToSock env fuel (si+1) (ri+1) wi fi sent (sl+1) fl .outer
        | .fail k => ⟨.failedRead k, sent, sl, fl⟩
        | .bytes [] =>
          match env.flushR fi with
          | some k => ⟨.failedFlush k, sent, sl, fl⟩
          | none => stdinToSock env fuel (si+1) (ri+1) wi (fi+1) sent sl (fl+1) .outer
        | .bytes (b :: bs) =>
          stdinToSock env fuel (si+1) (ri+1) wi fi sent sl fl (.wloop b bs)
      | .wloop q qs =>
        match env.writeR wi with
        | .fail k => ⟨.failedWrite k, sent, sl, fl⟩
        | .ok n =>
          match (q :: qs).drop n with
          | [] =>
            match env.flushR fi with
            | some k => ⟨.failedFlush k, sent ++ (q :: qs).take n, sl, fl⟩
            | none =>
              stdinToSock env fuel (si+1) ri (wi+1) (fi+1)
                (sent ++ (q :: qs).take n) sl (fl+1) .outer
          | r :: rs =>
            stdinToSock env fuel (si+1) ri (wi+1) fi
              (sent ++ (q :: qs).take n) sl fl (.wloop r rs)

/-- The persistent end-of-file environment: the stop flag stays false,
every stdin read returns zero bytes, and socket flushes succeed. -/
def eofInEnv : InEnv :=
  ⟨fun _ => false, fun _ => ReadRes.bytes [], fun _ => WriteRes.ok 0,
    fun _ => none⟩

/-- C9: when a stdin read returns zero bytes (end-of-file) under a false
stop flag, the iteration sends nothing to the socket, performs exactly one
(successful) flush, does not sleep, and loops again immediately; hence
under persistent end-of-file the pump never terminates on its own — it
spins, consuming one read and one flush per iteration, with no bytes sent
and no sleeps, for every fuel bound. -/
theorem stdin_eof_iteration_and_spin :
    (∀ (env : InEnv) (fuel si ri wi fi : Nat) (sent : List Nat) (sl fl : Nat),
      env.stop si = false → env.readR ri = .bytes [] → env.flushR fi = none →
      stdinToSock env (fuel+1) si ri wi fi sent sl fl .outer
        = stdinToSock env fuel (si+1) (ri+1) wi (fi+1) sent sl (fl+1) .outer) ∧
    (∀ (fuel si ri wi fi : Nat) (sent : List Nat) (sl fl : Nat),
      stdinToSock eofInEnv fuel si ri wi fi sent sl fl .outer
        = ⟨.spent, sent, sl, fl + fuel⟩) := by
  constructor
  · intro env fuel si ri wi fi sent sl fl hstop hread hflush
    simp only [stdinToSock, hstop, hread, hflush]
  · intro fuel
    induction fuel with
    | zero =>
      intro si ri wi fi sent sl fl
      simp [stdinToSock]
    | succ f ih =>
      intro si ri wi fi sent sl fl
      simp only [stdinToSock, eofInEnv]
      have h := ih (si+1) (ri+1) wi (fi+1) sent sl (fl+1)
      simp only [eofInEnv] at h
      rw [h]
      have : fl + 1 + f = fl + (f + 1) := by omega
      rw [this]

/-- A concrete end-of-file iteration: with fuel 1 under the persistent
end-of-file environment, one iteration runs, sending nothing, sleeping
zero times, flushing once, and the continuation is the loop top again. -/
theorem stdin_eof_iteration_and_spin_case :
    stdinToSock eofInEnv 1 0 0 0 0 [] 0 0 .outer
      = stdinToSock eofInEnv 0 1 1 0 1 [] 0 1 .outer ∧
    stdinToSock eofInEnv 0 1 1 0 1 [] 0 1 .outer = ⟨.spent, [], 0, 1⟩ := by
  constructor
  · exact stdin_eof_iteration_and_spin.1 eofInEnv 0 0 0 0 0 [] 0 0 rfl rfl rfl
  · exact stdin_eof_iteration_and_spin.2 0 1 1 0 1 [] 0 1

/-- Modelled from the spec: `tty::Size` (the `tty` module is not in
`src/`); a fixed record of four u16 fields carrying the terminal size,
matching the terminal-size ioctl payload. -/
structure Size where
  rows : Nat
  cols : Nat
  pixel_rows : Nat
  pixel_cols : Nat
deriving DecidableEq

/-- `AttachHeader` from `protocol.rs`: session name, local tty size, and
the propagated environment as an ordered association list. -/
structure AttachHeader where
  name : String
  local_tty_size : Size
  local_env : List (String × String)
deriving DecidableEq

/-- The loop body of `AttachHeader::local_env_get`: scan the association
list in order and return the value of the first entry whose key equals
`var` (the source compares `var == key`). -/
def lookupFirst (var : String) : List (String × String) → Option String
  | [] => none
  | (key, val) :: rest => if var = key then some val else lookupFirst var rest

/-- `AttachHeader::local_env_get`. -/
def AttachHeader.local_env_get (h : AttachHeader) (var : String) :
    Option String :=
  lookupFirst var h.local_env

/-- `ResizeRequest` from `protocol.rs`. -/
structure ResizeRequest where
  tty_size : Size
deriving DecidableEq

/-- `SessionMessageRequestPayload` from `protocol.rs`. -/
inductive SessionMessageRequestPayload
  | Resize (r : ResizeRequest)
  | Detach
deriving DecidableEq

/-- `SessionMessageRequest` from `protocol.rs`. -/
structure SessionMessageRequest where
  session_name : String
  payload : SessionMessageRequestPayload
deriving DecidableEq

/-- `DetachRequest` from `protocol.rs`. -/
structure DetachRequest where
  sessions : List String
deriving DecidableEq

/-- `KillRequest` from `protocol.rs`. -/
structure KillRequest where
  sessions : List String
deriving DecidableEq

/-- `ConnectHeader` from `protocol.rs`: the tagged union a client
transmits when it first connects. -/
inductive ConnectHeader
  | Attach (h : AttachHeader)
  | List
  | SessionMessage (r : SessionMessageRequest)
  | Detach (d : DetachRequest)
  | Kill (k : KillRequest)
deriving DecidableEq

/-- bincode (v1, default legacy options, as used by
`bincode::serialize_into`) encoding of a string: u64 LE byte length
followed by the UTF-8 bytes. -/
def encString (s : String) : List Nat :=
  u64le s.toUTF8.toList.length ++ s.toUTF8.toList.map (fun b => b.toNat)

/-- bincode encoding of `tty::Size`: the four u16 fields little-endian in
declaration order, no padding. -/
def encSize (z : Size) : List Nat :=
  u16le z.rows ++ u16le z.cols ++ u16le z.pixel_rows ++ u16le z.pixel_cols

/-- bincode encoding of a `Vec`: u64 LE element count followed by the
concatenated element encodings. -/
def encVec (f : α → List Nat) (l : List α) : List Nat :=
  u64le l.length ++ l.foldr (fun a acc => f a ++ acc) []

/-- bincode encoding of a `(String, String)` pair: the two fields
concatenated. -/
def encPair (p : String × String) : List Nat :=
  encString p.1 ++ encString p.2

/-- bincode encoding of `AttachHeader`: fields in declaration order. -/
def encAttachHeader (h : AttachHeader) : List Nat :=
  encString h.name ++ encSize h.local_tty_size ++ encVec encPair h.local_env

/-- bincode encoding of `SessionMessageRequestPayload`: u32 LE 0-based
declaration-order discriminant followed by the variant payload. -/
def encSessionMessageRequestPayload : SessionMessageRequestPayload → List Nat
  | .Resize r => u32le 0 ++ encSize r.tty_size
  | .Detach => u32le 1

/-- bincode encoding of `SessionMessageRequest`: fields in declaration
order. -/
def encSessionMessageRequest (r : SessionMessageRequest) : List Nat :=
  encString r.session_name ++ encSessionMessageRequestPayload r.payload

/-- bincode encoding of `ConnectHeader`: u32 LE 0-based declaration-order
discriminant followed by the variant payload. -/
def encConnectHeader : ConnectHeader → List Nat
  | .Attach h => u32le 0 ++ encAttachHeader h
  | .List => u32le 1
  | .SessionMessage r => u32le 2 ++ encSessionMessageRequest r
  | .Detach d => u32le 3 ++ encVec encString d.sessions
  | .Kill k => u32le 4 ++ encVec encString k.sessions

/-- The bytes `Client::write_connect_header` actually puts on the socket:
it calls `bincode::serialize_into(stream, &header)`, which writes the
bincode encoding of the header and nothing else — in particular no outer
length word. -/
def write_connect_header (h : ConnectHeader) : List Nat :=
  encConnectHeader h

/-- Modelled from the spec (and from the doc comment on `ConnectHeader`,
protocol.rs lines 43-46): the connect frame as specified, a u32 LE total
byte length followed by that many bytes of encoded header. -/
def connectFrameSpec (h : ConnectHeader) : List Nat :=
  u32le (encConnectHeader h).length ++ encConnectHeader h

/-- C1 (code bug): `write_connect_header` writes the bare bincode bytes
with no u32 LE length word, contradicting both the claim and the source's
own doc comment on `ConnectHeader` ("always prefixed with a 4 byte little
endian unsigned word to indicate length").  At `ConnectHeader::List` the
code writes the four discriminant bytes `[1,0,0,0]`, while the documented
frame would be `[4,0,0,0,1,0,0,0]`. -/
theorem write_connect_header_omits_length_word :
    write_connect_header .List = [1, 0, 0, 0] ∧
    connectFrameSpec .List = [4, 0, 0, 0, 1, 0, 0, 0] ∧
    write_connect_header .List ≠ connectFrameSpec .List := by
  refine ⟨rfl, rfl, ?_⟩
  decide

theorem lookupFirst_none_iff (var : String) :
    ∀ (l : List (String × String)),
      lookupFirst var l = none ↔ ∀ p ∈ l, p.1 ≠ var := by
  intro l
  induction l with
  | nil => simp [lookupFirst]
  | cons kv rest ih =>
    obtain ⟨key, val⟩ := kv
    by_cases hk : var = key
    · subst hk
      simp [lookupFirst]
    · simp only [lookupFirst, if_neg hk]
      rw [ih]
      constructor
      · intro h p hp
        rcases List.mem_cons.mp hp with h1 | h1
        · rw [h1]
          exact fun hc => hk hc.symm
        · exact h p h1
      · intro h p hp
        exact h p (List.mem_cons_of_mem _ hp)

theorem lookupFirst_some_iff (var v : String) :
    ∀ (l : List (String × String)),
      lookupFirst var l = some v ↔
        ∃ l1 l2, l = l1 ++ (var, v) :: l2 ∧ ∀ p ∈ l1, p.1 ≠ var := by
  intro l
  induction l with
  | nil =>
    simp only [lookupFirst]
    constructor
    · intro h
      exact absurd h (by simp)
    · rintro ⟨l1, l2, h, -⟩
      exact absurd h.symm (List.append_ne_nil_of_right_ne_nil l1 (by simp))
  | cons kv rest ih =>
    obtain ⟨key, val⟩ := kv
    by_cases hk : var = key
    · subst hk
      simp only [lookupFirst, if_pos rfl]
      constructor
      · intro h
        refine ⟨[], rest, ?_, by simp⟩
        simp at h
        simp [h]
      · rintro ⟨l1, l2, hdec, hne⟩
        match l1, hdec with
        | [], hdec =>
          simp only [List.nil_append, List.cons.injEq] at hdec
          have hv : val = v := ((Prod.mk.injEq _ _ _ _).mp hdec.1).2
          simp [hv]
        | (a, b) :: l1, hdec =>
          simp only [List.cons_append, List.cons.injEq] at hdec
          have ha : a = var := ((Prod.mk.injEq _ _ _ _).mp hdec.1).1.symm
          have := hne (a, b) (by simp)
          simp [ha] at this
    · simp only [lookupFirst, if_neg hk]
      rw [ih]
      constructor
      · rintro ⟨l1, l2, hdec, hne⟩
        refine ⟨(key, val) :: l1, l2, by simp [hdec], ?_⟩
        intro p hp
        rcases List.mem_cons.mp hp with h1 | h1
        · rw [h1]
          exact fun hc => hk hc.symm
        · exact hne p h1
      · rintro ⟨l1, l2, hdec, hne⟩
        match l1, hdec with
        | [], hdec =>
          simp only [List.nil_append, List.cons.injEq] at hdec
          have := ((Prod.mk.injEq _ _ _ _).mp hdec.1).1
          exact absurd this.symm hk
        | (a, b) :: l1, hdec =>
          simp only [List.cons_append, List.cons.injEq] at hdec
          refine ⟨l1, l2, hdec.2, ?_⟩
          intro p hp
          exact hne p (List.mem_cons_of_mem _ hp)

/-- C8: `local_env_get(k)` returns none exactly when no entry's key
equals `k`, and returns `some v` exactly when the sequence splits as
`earlier ++ (k, v) :: later` with no earlier key equal to `k` — the
first matching entry wins and duplicate keys are tolerated. -/
theorem local_env_get_first_match (h : AttachHeader) (var : String) :
    (h.local_env_get var = none ↔ ∀ p ∈ h.local_env, p.1 ≠ var) ∧
    (∀ v, h.local_env_get var = some v ↔
      ∃ l1 l2, h.local_env = l1 ++ (var, v) :: l2 ∧ ∀ p ∈ l1, p.1 ≠ var) :=
  ⟨lookupFirst_none_iff var h.local_env,
    fun v => lookupFirst_some_iff var v h.local_env⟩

/-- Duplicate keys: on `[("TERM","a"), ("TERM","b")]` lookup of `"TERM"`
returns the first value `"a"`, and a missing key returns none. -/
theorem local_env_get_first_match_case :
    AttachHeader.local_env_get
        ⟨"s", ⟨24, 80, 0, 0⟩, [("TERM", "a"), ("TERM", "b")]⟩ "TERM"
      = some "a" ∧
    AttachHeader.local_env_get
        ⟨"s", ⟨24, 80, 0, 0⟩, [("TERM", "a"), ("TERM", "b")]⟩ "HOME"
      = none := by
  constructor
  · exact ((local_env_get_first_match
      ⟨"s", ⟨24, 80, 0, 0⟩, [("TERM", "a"), ("TERM", "b")]⟩ "TERM").2 "a").mpr
      ⟨[], [("TERM", "b")], rfl, by simp⟩
  · exact (local_env_get_first_match
      ⟨"s", ⟨24, 80, 0, 0⟩, [("TERM", "a"), ("TERM", "b")]⟩ "HOME").1.mpr
      (by decide)
